/-
  Verification of the reactions-leaderboard scan engine of `bible_board`.

  Shallow embedding of the two scan/score variants found in the repository:
  * `src/empty-paper-a408/src/worker.js` — `iterateMessages`, `getReactorsForMessage`,
    `topN`, `buildNameMap`, `runScan`, `postFancyLeaderboard` (embed construction);
  * `src/unnamed/part_000` (the `leaderboard.js` module used by `src/server.js`) —
    `generateLeaderboardEmbed`, `getRecentMessages`, `calculatePoints`,
    `generateAndPostLeaderboard`.

  Network interaction is embedded by passing the sequence of HTTP responses the
  underlying platform would deliver: message history pages are a list of
  responses consumed in pagination order (the `before`/`after` cursor of the
  source only serves to advance to the next page), and the reaction-user pages
  for a given message/emoji are obtained from an environment function keyed by
  the message id and the emoji identity (the URL token built from
  `encodeURIComponent`/`name:id` in the source serves only to address that
  page list).  JavaScript `Map`/`Set` values are embedded as insertion-ordered
  association lists, matching the iteration-order semantics of the source.
  The clock (`Date.now()`, `new Date().toISOString()`) is an explicit input.
-/
import Mathlib

deriving instance DecidableEq for Except

/-! ### Data model -/

/-- An emoji identity: a unicode name, plus a numeric id for custom emoji. -/
structure EmojiId where
  name : String
  id : Option String
deriving DecidableEq, Repr

/-- One entry of a message's `reactions` summary array. -/
structure ReactionSummary where
  count : Nat
  emoji : Option EmojiId
deriving DecidableEq, Repr

/-- A Discord message as consumed by the scan: id, parsed timestamp
(`Date.parse(msg.timestamp)`, in ms), author id, and reaction summaries
(`[]` models both an absent and an empty `reactions` array). -/
structure Msg where
  id : String
  ts : Int
  author : String
  reactions : List ReactionSummary
deriving DecidableEq, Repr

/-- An HTTP response carrying a page of messages. -/
structure MsgResponse where
  status : Nat
  statusText : String
  body : List Msg
deriving DecidableEq, Repr

/-- A reaction user record: id plus the `bot` flag. -/
structure RUser where
  id : String
  bot : Bool
deriving DecidableEq, Repr

/-- An HTTP response carrying a page of reaction users. -/
structure UserResponse where
  status : Nat
  statusText : String
  body : List RUser
deriving DecidableEq, Repr

/-- `Response.ok` of the fetch API: status in the 200–299 range. -/
def respOkM (r : MsgResponse) : Bool := 200 ≤ r.status && r.status < 300

/-- `Response.ok` for reaction-user pages. -/
def respOkU (r : UserResponse) : Bool := 200 ≤ r.status && r.status < 300

/-- The scan environment: configuration, clock, and the pages the platform
would deliver.  `msgPages` is the message history in pagination order;
`reactPages msgId name emojiId` is the pagination-ordered list of
reaction-user pages for one emoji of one message. -/
structure Env where
  botToken : String
  sourceChannel : String
  guildId : String
  postChannel : String
  nowMs : Int
  nowIso : String
  msgPages : List MsgResponse
  reactPages : String → String → Option String → List UserResponse

/-! ### JS `Map` / `Set` embedding (insertion-ordered association lists) -/

/-- A score ledger: JS `Map<string, number>` as an insertion-ordered list. -/
abbrev Ledger := List (String × Nat)

/-- `map.get(k) || 0` — the stored value of the (unique) entry with key
`k`, or `0` when absent. -/
def ledgerGet : Ledger → String → Nat
  | [], _ => 0
  | p :: ps, k => if p.1 == k then p.2 else ledgerGet ps k

/-- `map.set(k, v)` — updates the entry in place when the key exists (JS
`Map.set` keeps the original insertion position; ledger keys are unique,
so replacing the first occurrence is the JS behaviour), appends otherwise. -/
def ledgerSet : Ledger → String → Nat → Ledger
  | [], k, v => [(k, v)]
  | p :: ps, k, v => if p.1 == k then (k, v) :: ps else p :: ledgerSet ps k v

/-- `set.add(u)` on a JS `Set<string>`: appends on first sight only. -/
def setAdd : List String → String → List String
  | [], u => [u]
  | x :: xs, u => if x == u then x :: xs else x :: setAdd xs u

/-! ### Worker variant (`src/empty-paper-a408/src/worker.js`) -/

/-- One page of the generator loop body of `iterateMessages`: yield messages
until one with `ts < sinceTs` is hit; the flag records whether the stale
`return` fired inside this page. -/
def takeFresh (since : Int) : List Msg → List Msg × Bool
  | [] => ([], false)
  | m :: ms =>
    if m.ts < since then ([], true)
    else
      let r := takeFresh since ms
      (m :: r.1, r.2)

/-- `iterateMessages` (worker.js:31–48): walk the history pages, yielding
messages until an empty page, a failing response, or the first message
older than the window start.  The collected yields of the generator are
returned; an `Error` throw is an `Except.error` with the thrown message. -/
def iterateMessages (since : Int) : List MsgResponse → Except String (List Msg)
  | [] => .ok []
  | r :: rest =>
    if respOkM r = false then .error ("Get messages failed: " ++ Nat.repr r.status)
    else if r.body.isEmpty then .ok []
    else
      let tf := takeFresh since r.body
      if tf.2 then .ok tf.1
      else (iterateMessages since rest).map (fun more => tf.1 ++ more)

/-- The inner `while` of `getReactorsForMessage` (worker.js:59–69): page
through one emoji's reaction users, adding non-bot ids to the set, stopping
when a page holds fewer than 100 users.  Exhausted page lists model the
platform returning an empty page. -/
def collectUsers (acc : List String) : List UserResponse → Except String (List String)
  | [] => .ok acc
  | r :: rest =>
    if respOkU r = false then .error ("Get reactions failed: " ++ Nat.repr r.status)
    else
      let acc2 := r.body.foldl (fun a u => if u.bot then a else setAdd a u.id) acc
      if r.body.length < 100 then .ok acc2 else collectUsers acc2 rest

/-- One iteration of the `for (const r of reactionsSummary)` loop: summaries
with a zero count or a missing emoji are skipped (`!r.count || !r.emoji`). -/
def collectEmoji (env : Env) (mid : String) (acc : List String)
    (r : ReactionSummary) : Except String (List String) :=
  match r.emoji with
  | none => .ok acc
  | some e => if r.count = 0 then .ok acc else collectUsers acc (env.reactPages mid e.name e.id)

/-- `getReactorsForMessage` (worker.js:50–72): the deduplicated set of
non-bot users who reacted with any emoji of the message's summary list. -/
def getReactorsForMessage (env : Env) (m : Msg) : Except String (List String) :=
  if m.reactions.isEmpty then .ok []
  else m.reactions.foldlM (collectEmoji env m.id) []

/-- Whether user `u` is resolved as a (non-bot) reactor of message `m` by
`getReactorsForMessage`; `false` when reactor resolution fails.  Used to
state the scoring rule. -/
def reactsTo (env : Env) (m : Msg) (u : String) : Bool :=
  match getReactorsForMessage env m with
  | .ok rs => decide (u ∈ rs)
  | .error _ => false

/-- The sort order of `topN` (worker.js:75): points descending
(`b[1] - a[1]`), then user id ascending (`a[0].localeCompare(b[0])`). -/
def topNLe (a b : String × Nat) : Bool :=
  decide (b.2 < a.2) || (decide (a.2 = b.2) && decide (a.1 ≤ b.1))

/-- `topN` (worker.js:74–76): the ledger entries sorted by `topNLe`, first
`n` kept. -/
def topN (m : Ledger) (n : Nat) : List (String × Nat) :=
  (m.mergeSort topNLe).take n

/-- `buildNameMap` (worker.js:79–83): every user id resolves to a platform
mention; the guild id argument is ignored by the source. -/
def buildNameMap (_guildId : String) (userIds : List String) : List (String × String) :=
  userIds.map (fun uid => (uid, "<@" ++ uid ++ ">"))

/-- Scoring one reactor (worker.js:96–99): `points.set(uid, (points.get(uid)
|| 0) + 1)` and `seenUsers.add(uid)`. -/
def scoreStep (st : Ledger × List String) (uid : String) : Ledger × List String :=
  (ledgerSet st.1 uid (ledgerGet st.1 uid + 1), setAdd st.2 uid)

/-- Scoring every reactor of one message. -/
def scoreMsg (st : Ledger × List String) (reactors : List String) : Ledger × List String :=
  reactors.foldl scoreStep st

/-- The body of the `for await` loop of `runScan` (worker.js:93–100): skip
messages with no reaction summary, otherwise resolve reactors and score. -/
def scanStep (env : Env) (st : Ledger × List String) (m : Msg) :
    Except String (Ledger × List String) :=
  if m.reactions.isEmpty then .ok st
  else (getReactorsForMessage env m).map (fun rs => scoreMsg st rs)

/-- The accumulation phase of `runScan` (worker.js:89–100): iterate the
window's messages and build the points ledger and the distinct-reactor set. -/
def runScanLedger (env : Env) (windowMs : Int) : Except String (Ledger × List String) := do
  let msgs ← iterateMessages (env.nowMs - windowMs) env.msgPages
  msgs.foldlM (scanStep env) ([], [])

/-- The result record of `runScan`. -/
structure ScanResult where
  rows : List (String × Nat)
  names : List (String × String)
  unique : Nat
deriving DecidableEq, Repr

/-- `runScan` (worker.js:85–105): configuration guard, scan, and the final
`{ rows, names, uniqueReactors }` record. -/
def runScan (env : Env) (windowMs : Int) : Except String ScanResult :=
  if env.botToken = "" ∨ env.sourceChannel = "" then
    .error "Missing DISCORD_BOT_TOKEN or SOURCE_CHANNEL_ID"
  else
    (runScanLedger env windowMs).map (fun st =>
      { rows := topN st.1 10, names := buildNameMap env.guildId st.2, unique := st.2.length })

/-- A rendered embed field. -/
structure EmbedField where
  name : String
  value : String
  inline : Bool
deriving DecidableEq, Repr

/-- The rendered embed of `postFancyLeaderboard` (worker.js:114–121). -/
structure Embed where
  title : String
  description : String
  color : Nat
  footerText : String
  timestamp : String
  fields : List EmbedField
deriving DecidableEq, Repr

/-- The rank marker (worker.js:108). -/
def medal (i : Nat) : String :=
  if i = 0 then "🥇" else if i = 1 then "🥈" else if i = 2 then "🥉" else "•"

/-- `nameLookup.get(uid)` with the `User ${uid}` fallback (worker.js:110). -/
def nameOf (names : List (String × String)) (uid : String) : String :=
  match names.find? (fun p => p.1 == uid) with
  | some p => p.2
  | none => "User " ++ uid

/-- One rendered leaderboard line (worker.js:109–112). -/
def rowLine (names : List (String × String)) (i : Nat) (row : String × Nat) : String :=
  medal i ++ " **" ++ Nat.repr (i + 1) ++ ". " ++ nameOf names row.1 ++ "** — " ++
    Nat.repr row.2 ++ " pt" ++ (if row.2 = 1 then "" else "s")

/-- The embed built by `postFancyLeaderboard` (worker.js:107–121); the
`meta` argument is always supplied by the worker's callers, so the unique
reactor field is always present.  `lines.join('\n') || 'No points this
week.'` substitutes the placeholder exactly when the joined string is
empty. -/
def postFancyLeaderboardEmbed (res : ScanResult) (nowIso : String) : Embed :=
  let lines := res.rows.enum.map (fun p => rowLine res.names p.1 p.2)
  let d := String.intercalate "\n" lines
  { title := "🏆 Weekly Reading Leaderboard"
    description := if d = "" then "No points this week." else d
    color := 0x00b894
    footerText := "Scoring: 1 point per message you react to in #daily-reading-check"
    timestamp := nowIso
    fields := [⟨"Unique reactors (7d)", Nat.repr res.unique, true⟩] }

/-- The scheduled/cron path (worker.js:231–234 and 123–128 up to the POST):
run the scan and render the embed that would be posted. -/
def scanEmbed (env : Env) (windowMs : Int) : Except String Embed :=
  (runScan env windowMs).map (fun res => postFancyLeaderboardEmbed res env.nowIso)

/-! ### Server variant (`src/unnamed/part_000`, used by `src/src/server.js`) -/

/-- `MS_IN_WEEK` (part_000:6). -/
def msInWeek : Int := 7 * 24 * 60 * 60 * 1000

/-- The embed shape of `generateLeaderboardEmbed` (no footer). -/
structure EmbedB where
  title : String
  description : String
  fields : List EmbedField
  color : Nat
  timestamp : String
deriving DecidableEq, Repr

/-- `generateLeaderboardEmbed` (part_000:13–31): sort the ledger entries by
points descending only (JS `sort` is stable, so ties keep ledger insertion
order), keep ten, and render one field per entry. -/
def generateLeaderboardEmbed (userPoints : Ledger) (nowIso : String) : EmbedB :=
  let sortedUsers := (userPoints.mergeSort (fun a b => decide (b.2 ≤ a.2))).take 10
  let fields := sortedUsers.enum.map (fun p =>
    { name := "#" ++ Nat.repr (p.1 + 1)
      value := "<@" ++ p.2.1 ++ "> - " ++ Nat.repr p.2.2 ++ " points"
      inline := false : EmbedField })
  { title := "🏆 Weekly Reactors Leaderboard"
    description := "Top 10 users who received reactions in the past week:"
    fields := fields
    color := 0xffd700
    timestamp := nowIso }

/-- The `while` loop of `getRecentMessages` (part_000:45–80), with the
accumulated `messages` array threaded through.  When the oldest message of
a page precedes the window start, the page's in-window remainder is pushed
and the loop breaks; otherwise the whole page is pushed and the cap is
enforced by truncation. -/
def getRecentGo (weekAgo : Int) (limit : Nat) :
    List MsgResponse → List Msg → Except String (List Msg)
  | [], acc => .ok acc
  | r :: rest, acc =>
    if respOkM r = false then .error ("Failed to fetch messages: " ++ r.statusText)
    else
      match r.body.getLast? with
      | none => .ok acc
      | some oldest =>
        if oldest.ts < weekAgo then
          .ok (acc ++ r.body.filter (fun m => decide (weekAgo ≤ m.ts)))
        else
          let acc2 := acc ++ r.body
          if limit ≤ acc2.length then .ok (acc2.take limit)
          else getRecentGo weekAgo limit rest acc2

/-- `getRecentMessages` (part_000:40–83): window start is one week before
the clock; the `limit` parameter defaults to `100` when the caller omits
it. -/
def getRecentMessages (nowMs : Int) (limitOpt : Option Nat)
    (pages : List MsgResponse) : Except String (List Msg) :=
  getRecentGo (nowMs - msInWeek) (limitOpt.getD 100) pages []

/-- `calculatePoints` (part_000:90–104): one point to the message author
for every message carrying at least one reaction summary. -/
def calculatePoints (messages : List Msg) : Ledger :=
  messages.foldl
    (fun pts m =>
      if m.reactions.isEmpty then pts
      else ledgerSet pts m.author (ledgerGet pts m.author + 1))
    []

/-- `generateAndPostLeaderboard` (part_000:132–142) up to the POST: fetch
the window's messages, score authors, render the embed.  The weekly
slash-command and scheduled paths of `server.js` call it with the limit
omitted (`none`); the `/cron-test` route passes `some 500`. -/
def generateAndPostLeaderboard (env : Env) (limitOpt : Option Nat) :
    Except String EmbedB :=
  (getRecentMessages env.nowMs limitOpt env.msgPages).map
    (fun msgs => generateLeaderboardEmbed (calculatePoints msgs) env.nowIso)

/-! ### Concrete inputs used by counterexamples and witnesses -/

/-- Decimal digit sequence of a natural number, most significant first;
reference function used to reason about `Nat.repr`. -/
def decChars (n : Nat) : List Char :=
  if _h : n < 10 then [Nat.digitChar n]
  else decChars (n / 10) ++ [Nat.digitChar (n % 10)]
decreasing_by
  exact Nat.div_lt_self (by omega) (by omega)

/-- One in-window message authored by `alice`, carrying one reaction. -/
def c1msgs : List Msg := [⟨"m1", 0, "alice", [⟨1, some ⟨"star", none⟩⟩]⟩]

/-- The platform-side reaction state for `c1msgs`: the only non-bot
reactor of message `m1` is `bob` (who is not its author). -/
def c1reactorsOf (mid : String) : List String := if mid = "m1" then ["bob"] else []

/-- Worker-variant environment for the scoring witness: one in-window
reacted message whose only reactor is the non-bot user `bob`. -/
def c1env : Env :=
  { botToken := "t", sourceChannel := "c", guildId := "g", postChannel := "p"
    nowMs := 1000, nowIso := "2025-01-01T00:00:00.000Z"
    msgPages := [⟨200, "OK", [⟨"m1", 950, "a", [⟨1, some ⟨"s", none⟩⟩]⟩]⟩]
    reactPages := fun mid _ _ =>
      if mid = "m1" then [⟨200, "OK", [⟨"bob", false⟩]⟩] else [] }

/-- A successful page whose second message is older than window start 10. -/
def c2resp : MsgResponse := ⟨200, "OK", [⟨"a", 12, "x", []⟩, ⟨"b", 5, "y", []⟩]⟩

/-- A single page straddling the window boundary: two in-window messages
followed by one stale message. -/
def c4pages : List MsgResponse :=
  [⟨200, "OK", [⟨"a", 5, "x", []⟩, ⟨"b", 4, "x", []⟩, ⟨"c", -100, "x", []⟩]⟩]

/-- A fully in-window single page, for the amended-cap witness. -/
def c4freshPages : List MsgResponse :=
  [⟨200, "OK", [⟨"a", 5, "x", []⟩, ⟨"b", 4, "x", []⟩]⟩]

/-- An environment whose only message was reacted to by a bot account
(`b1`) and by a human (`h1`). -/
def c6env : Env :=
  { botToken := "t", sourceChannel := "c", guildId := "g", postChannel := "p"
    nowMs := 1000, nowIso := "2025-01-01T00:00:00.000Z"
    msgPages := [⟨200, "OK", [⟨"m1", 950, "a", [⟨2, some ⟨"s", none⟩⟩]⟩]⟩]
    reactPages := fun mid _ _ =>
      if mid = "m1" then [⟨200, "OK", [⟨"b1", true⟩, ⟨"h1", false⟩]⟩] else [] }

/-- Base environment for the determinism claim: one in-window reacted
message, one non-bot reactor. -/
def c7base : Env :=
  { botToken := "t", sourceChannel := "c", guildId := "g", postChannel := "p"
    nowMs := 1000, nowIso := "2025-01-01T00:00:00.000Z"
    msgPages := [⟨200, "OK", [⟨"m1", 950, "a", [⟨1, some ⟨"s", none⟩⟩]⟩]⟩]
    reactPages := fun mid _ _ =>
      if mid = "m1" then [⟨200, "OK", [⟨"u1", false⟩]⟩] else [] }

/-- Same history, reaction state and resolver as `c7base`, read at a later
clock instant. -/
def c7later : Env := { c7base with nowIso := "2025-01-01T00:00:01.000Z" }

/-- Same history, reaction state, clock and resolver as `c7base`, but a
different guild and destination channel. -/
def c7othercfg : Env := { c7base with guildId := "g2", postChannel := "p2" }

/-- An environment whose only fetched message lies outside every window of
at most 1400 ms: the scan ledger comes out empty. -/
def c8env : Env :=
  { botToken := "t", sourceChannel := "c", guildId := "g", postChannel := "p"
    nowMs := 1000, nowIso := "2025-01-01T00:00:00.000Z"
    msgPages := [⟨200, "OK", [⟨"m1", -500, "a", [⟨1, some ⟨"s", none⟩⟩]⟩]⟩]
    reactPages := fun _ _ _ => [] }

/-- An environment with one message reacted to by two distinct non-bot
users. -/
def c9env : Env :=
  { botToken := "t", sourceChannel := "c", guildId := "g", postChannel := "p"
    nowMs := 1000, nowIso := "2025-01-01T00:00:00.000Z"
    msgPages := [⟨200, "OK", [⟨"m1", 950, "a", [⟨2, some ⟨"s", none⟩⟩]⟩]⟩]
    reactPages := fun mid _ _ =>
      if mid = "m1" then [⟨200, "OK", [⟨"u1", false⟩, ⟨"u2", false⟩]⟩] else [] }

/-- An in-window message used to build the long history of the cap
counterexample. -/
def c10fresh : Msg := ⟨"f", 10, "a", []⟩

/-- A stale message used to build the long history of the cap
counterexample. -/
def c10stale : Msg := ⟨"s", -5, "a", []⟩

/-- A 99-message full first page followed by a page straddling the window:
50 in-window messages, then 50 stale ones. -/
def c10pages : List MsgResponse :=
  [⟨200, "OK", List.replicate 99 c10fresh⟩,
   ⟨200, "OK", List.replicate 50 c10fresh ++ List.replicate 50 c10stale⟩]

/-! ### Lemmas: container embedding -/

theorem ledgerGet_set_self (l : Ledger) (k : String) (v : Nat) :
    ledgerGet (ledgerSet l k v) k = v := by
  induction l with
  | nil => simp [ledgerSet, ledgerGet]
  | cons p ps ih =>
    by_cases h : p.1 = k
    · simp [ledgerSet, ledgerGet, h]
    · simp [ledgerSet, ledgerGet, h, ih]

theorem ledgerGet_set_ne (l : Ledger) (k : String) (v : Nat) (u : String) (h : u ≠ k) :
    ledgerGet (ledgerSet l k v) u = ledgerGet l u := by
  induction l with
  | nil => simp [ledgerSet, ledgerGet, Ne.symm h]
  | cons p ps ih =>
    by_cases hk : p.1 = k
    · simp [ledgerSet, ledgerGet, hk, Ne.symm h]
    · simp [ledgerSet, ledgerGet, hk, ih]

theorem setAdd_eq (s : List String) (u : String) :
    setAdd s u = if s.contains u then s else s ++ [u] := by
  induction s with
  | nil => simp [setAdd]
  | cons x xs ih =>
    by_cases h : x = u
    · simp [setAdd, h]
    · by_cases hm : u ∈ xs
      · simp [setAdd, h, ih, hm, Ne.symm h]
      · simp [setAdd, h, ih, hm, Ne.symm h]

theorem ledgerSet_keys (l : Ledger) (k : String) (v : Nat) :
    (ledgerSet l k v).map Prod.fst =
      if (l.map Prod.fst).contains k then l.map Prod.fst else l.map Prod.fst ++ [k] := by
  induction l with
  | nil => simp [ledgerSet]
  | cons p ps ih =>
    by_cases h : p.1 = k
    · simp [ledgerSet, h]
    · by_cases hm : k ∈ ps.map Prod.fst
      · simp [ledgerSet, h, ih, hm, Ne.symm h]
      · simp [ledgerSet, h, ih, hm, Ne.symm h]

theorem ledgerSet_keys_setAdd (l : Ledger) (s : List String) (k : String) (v : Nat)
    (h : l.map Prod.fst = s) : (ledgerSet l k v).map Prod.fst = setAdd s k := by
  rw [ledgerSet_keys, setAdd_eq, h]

theorem mem_setAdd (s : List String) (u x : String) :
    x ∈ setAdd s u ↔ x ∈ s ∨ x = u := by
  rw [setAdd_eq]
  by_cases h : u ∈ s
  · simp only [List.elem_eq_true_of_mem h, if_true]
    constructor
    · exact Or.inl
    · rintro (hx | rfl)
      · exact hx
      · exact h
  · simp [h]

theorem setAdd_nodup (s : List String) (u : String) (h : s.Nodup) :
    (setAdd s u).Nodup := by
  rw [setAdd_eq]
  by_cases hc : u ∈ s
  · simpa [hc] using h
  · have hcf : s.contains u = false := by simpa using hc
    simp only [hcf, Bool.false_eq_true, if_false]
    refine List.Nodup.append h (List.nodup_singleton u) ?_
    intro a ha hb
    simp only [List.mem_singleton] at hb
    subst hb
    exact hc ha

theorem length_setAdd_ge (s : List String) (u : String) :
    s.length ≤ (setAdd s u).length := by
  rw [setAdd_eq]
  by_cases h : u ∈ s <;> simp [h]

/-! ### Lemmas: the worker paginator -/

theorem takeFresh_eq (since : Int) (l : List Msg) :
    takeFresh since l =
      (l.takeWhile (fun m => decide (since ≤ m.ts)), l.any (fun m => decide (m.ts < since))) := by
  induction l with
  | nil => simp [takeFresh]
  | cons m ms ih =>
    by_cases h : m.ts < since
    · simp [takeFresh, h, List.takeWhile_cons, not_le.mpr h]
    · simp [takeFresh, h, List.takeWhile_cons, not_lt.mp h, ih]

theorem iterateMessages_fresh (since : Int) (pages : List MsgResponse) (msgs : List Msg)
    (h : iterateMessages since pages = .ok msgs) : ∀ m ∈ msgs, since ≤ m.ts := by
  induction pages generalizing msgs with
  | nil =>
    simp only [iterateMessages, Except.ok.injEq] at h
    subst h
    intro m hm
    cases hm
  | cons r rest ih =>
    by_cases hok : respOkM r = false
    · simp [iterateMessages, hok] at h
    · by_cases hemp : r.body.isEmpty
      · simp [iterateMessages, hok, hemp] at h
        subst h
        intro m hm
        cases hm
      · by_cases hany : r.body.any (fun m => decide (m.ts < since)) = true
        · simp [iterateMessages, hok, hemp, takeFresh_eq, hany] at h
          subst h
          intro m hm
          simpa using List.mem_takeWhile_imp hm
        · cases hrest : iterateMessages since rest with
          | error e =>
            simp [iterateMessages, hok, hemp, takeFresh_eq, hany, hrest, Except.map] at h
          | ok more =>
            simp [iterateMessages, hok, hemp, takeFresh_eq, hany, hrest, Except.map] at h
            subst h
            intro m hm
            rcases List.mem_append.mp hm with hm1 | hm2
            · simpa using List.mem_takeWhile_imp hm1
            · exact ih more hrest m hm2

theorem iterateMessages_stale (since : Int) (r : MsgResponse) (rest : List MsgResponse)
    (hok : respOkM r = true) (hst : ∃ m ∈ r.body, m.ts < since) :
    iterateMessages since (r :: rest) =
      .ok (r.body.takeWhile (fun m => decide (since ≤ m.ts))) := by
  have hne : r.body.isEmpty = false := by
    rcases hst with ⟨m, hm, _⟩
    cases hb : r.body with
    | nil => rw [hb] at hm; cases hm
    | cons a as => simp
  have hany : r.body.any (fun m => decide (m.ts < since)) = true := by
    rcases hst with ⟨m, hm, hlt⟩
    exact List.any_eq_true.mpr ⟨m, hm, by simpa using hlt⟩
  simp [iterateMessages, hok, hne, takeFresh_eq, hany]

theorem filter_eq_takeWhile_of_sorted (since : Int) (l : List Msg)
    (hs : l.Pairwise (fun a b => b.ts < a.ts)) :
    l.filter (fun m => decide (since ≤ m.ts)) = l.takeWhile (fun m => decide (since ≤ m.ts)) := by
  induction l with
  | nil => rfl
  | cons m ms ih =>
    rcases List.pairwise_cons.mp hs with ⟨hm, htail⟩
    by_cases h : since ≤ m.ts
    · simp [List.filter_cons, List.takeWhile_cons, h, ih htail]
    · have hall : ms.filter (fun x => decide (since ≤ x.ts)) = [] := by
        refine List.filter_eq_nil_iff.mpr ?_
        intro x hx
        have hxm := hm x hx
        simp only [decide_eq_true_eq]
        omega
      simp [List.filter_cons, List.takeWhile_cons, h, hall]

theorem getLast_stale (since : Int) (l : List Msg)
    (hs : l.Pairwise (fun a b => b.ts < a.ts)) (hst : ∃ m ∈ l, m.ts < since)
    (ol : Msg) (hol : l.getLast? = some ol) : ol.ts < since := by
  induction l with
  | nil => cases hol
  | cons a as ih =>
    cases as with
    | nil =>
      simp only [List.getLast?_singleton, Option.some.injEq] at hol
      rcases hst with ⟨m, hm, hlt⟩
      simp only [List.mem_singleton] at hm
      subst hm
      subst hol
      exact hlt
    | cons b bs =>
      rw [List.getLast?_cons_cons] at hol
      rcases List.pairwise_cons.mp hs with ⟨ha, htail⟩
      rcases hst with ⟨m, hm, hlt⟩
      rcases List.mem_cons.mp hm with rfl | hm2
      · have hb : b.ts < m.ts := ha b (List.mem_cons_self b bs)
        exact ih htail ⟨b, List.mem_cons_self b bs, by omega⟩ hol
      · exact ih htail ⟨m, hm2, hlt⟩ hol

theorem getRecentGo_stale (weekAgo : Int) (limit : Nat) (r : MsgResponse)
    (rest : List MsgResponse) (acc : List Msg) (hok : respOkM r = true)
    (hs : r.body.Pairwise (fun a b => b.ts < a.ts)) (hst : ∃ m ∈ r.body, m.ts < weekAgo) :
    getRecentGo weekAgo limit (r :: rest) acc =
      .ok (acc ++ r.body.takeWhile (fun m => decide (weekAgo ≤ m.ts))) := by
  have hne : r.body ≠ [] := by
    rcases hst with ⟨m, hm, _⟩
    intro hb
    rw [hb] at hm
    cases hm
  have hol : r.body.getLast? = some (r.body.getLast hne) := List.getLast?_eq_getLast _ hne
  have hstale : (r.body.getLast hne).ts < weekAgo := getLast_stale weekAgo r.body hs hst _ hol
  rw [getRecentGo, if_neg (by simp [hok]), hol]
  simp only [hstale, if_true, filter_eq_takeWhile_of_sorted weekAgo r.body hs]

theorem getRecentGo_length (weekAgo : Int) (limit : Nat) (pages : List MsgResponse)
    (hfresh : ∀ r ∈ pages, ∀ m ∈ r.body, weekAgo ≤ m.ts) :
    ∀ acc l, acc.length ≤ limit → getRecentGo weekAgo limit pages acc = .ok l →
      l.length ≤ limit := by
  induction pages with
  | nil =>
    intro acc l ha h
    simp only [getRecentGo, Except.ok.injEq] at h
    subst h
    exact ha
  | cons r rest ih =>
    intro acc l ha h
    by_cases hok : respOkM r = false
    · simp [getRecentGo, hok] at h
    · cases hlast : r.body.getLast? with
      | none =>
        rw [getRecentGo, if_neg (by simp_all), hlast] at h
        simp only [Except.ok.injEq] at h
        subst h
        exact ha
      | some oldest =>
        have hof : weekAgo ≤ oldest.ts :=
          hfresh r (List.mem_cons_self r rest) oldest
            (List.mem_of_mem_getLast? (by rw [hlast]; rfl))
        rw [getRecentGo, if_neg (by simp_all), hlast] at h
        simp only [if_neg (not_lt.mpr hof)] at h
        by_cases hcap : limit ≤ (acc ++ r.body).length
        · rw [if_pos hcap] at h
          simp only [Except.ok.injEq] at h
          subst h
          simp
        · rw [if_neg hcap] at h
          refine ih (fun r' hr' => hfresh r' (List.mem_cons_of_mem r hr')) (acc ++ r.body) l
            (by omega) h

/-! ### Lemmas: the reaction collector -/

theorem foldl_addNonBot_nodup (body : List RUser) :
    ∀ acc : List String, acc.Nodup →
      (body.foldl (fun a u => if u.bot then a else setAdd a u.id) acc).Nodup := by
  induction body with
  | nil => intro acc h; exact h
  | cons u us ih =>
    intro acc h
    rw [List.foldl_cons]
    cases hb : u.bot
    · simpa [hb] using ih (setAdd acc u.id) (setAdd_nodup acc u.id h)
    · simpa [hb] using ih acc h

theorem foldl_addNonBot_notMem (body : List RUser) (u : String)
    (hb : ∀ usr ∈ body, usr.id = u → usr.bot = true) :
    ∀ acc : List String, u ∉ acc →
      u ∉ body.foldl (fun a v => if v.bot then a else setAdd a v.id) acc := by
  induction body with
  | nil => intro acc h; exact h
  | cons v vs ih =>
    intro acc h
    rw [List.foldl_cons]
    have ih2 := ih (fun usr hu => hb usr (List.mem_cons_of_mem v hu))
    cases hbv : v.bot
    · have hne : u ≠ v.id := by
        intro he
        rw [hb v (List.mem_cons_self v vs) he.symm] at hbv
        cases hbv
      refine ih2 (setAdd acc v.id) ?_
      rw [mem_setAdd]
      rintro (hc | hc)
      · exact h hc
      · exact hne hc
    · simpa [hbv] using ih2 acc h

theorem collectUsers_nodup (pages : List UserResponse) :
    ∀ acc rs : List String, acc.Nodup → collectUsers acc pages = .ok rs → rs.Nodup := by
  induction pages with
  | nil =>
    intro acc rs h hc
    simp only [collectUsers, Except.ok.injEq] at hc
    subst hc
    exact h
  | cons r rest ih =>
    intro acc rs h hc
    by_cases hok : respOkU r = false
    · simp [collectUsers, hok] at hc
    · by_cases hlen : r.body.length < 100
      · simp [collectUsers, hok, hlen] at hc
        subst hc
        exact foldl_addNonBot_nodup r.body acc h
      · simp only [collectUsers, hok, Bool.false_eq_true, if_false, hlen, if_false] at hc
        exact ih _ rs (foldl_addNonBot_nodup r.body acc h) hc

theorem collectUsers_notMem (pages : List UserResponse) (u : String)
    (hb : ∀ p ∈ pages, ∀ usr ∈ p.body, usr.id = u → usr.bot = true) :
    ∀ acc rs : List String, u ∉ acc → collectUsers acc pages = .ok rs → u ∉ rs := by
  induction pages with
  | nil =>
    intro acc rs h hc
    simp only [collectUsers, Except.ok.injEq] at hc
    subst hc
    exact h
  | cons r rest ih =>
    intro acc rs h hc
    have hbhead : ∀ usr ∈ r.body, usr.id = u → usr.bot = true :=
      hb r (List.mem_cons_self r rest)
    have ih2 := ih (fun p hp => hb p (List.mem_cons_of_mem r hp))
    by_cases hok : respOkU r = false
    · simp [collectUsers, hok] at hc
    · by_cases hlen : r.body.length < 100
      · simp [collectUsers, hok, hlen] at hc
        subst hc
        exact foldl_addNonBot_notMem r.body u hbhead acc h
      · simp only [collectUsers, hok, Bool.false_eq_true, if_false, hlen, if_false] at hc
        exact ih2 _ rs (foldl_addNonBot_notMem r.body u hbhead acc h) hc

theorem collectEmoji_nodup (env : Env) (mid : String) (acc : List String)
    (s : ReactionSummary) (rs : List String) (h : acc.Nodup)
    (hc : collectEmoji env mid acc s = .ok rs) : rs.Nodup := by
  cases hse : s.emoji with
  | none =>
    simp only [collectEmoji, hse, Except.ok.injEq] at hc
    subst hc
    exact h
  | some e =>
    by_cases hcount : s.count = 0
    · simp only [collectEmoji, hse, hcount, if_true, Except.ok.injEq] at hc
      subst hc
      exact h
    · simp only [collectEmoji, hse, hcount, if_false] at hc
      exact collectUsers_nodup _ acc rs h hc

theorem collectEmoji_notMem (env : Env) (mid : String) (u : String)
    (hb : ∀ name eid, ∀ p ∈ env.reactPages mid name eid, ∀ usr ∈ p.body,
      usr.id = u → usr.bot = true)
    (acc : List String) (s : ReactionSummary) (rs : List String) (h : u ∉ acc)
    (hc : collectEmoji env mid acc s = .ok rs) : u ∉ rs := by
  cases hse : s.emoji with
  | none =>
    simp only [collectEmoji, hse, Except.ok.injEq] at hc
    subst hc
    exact h
  | some e =>
    by_cases hcount : s.count = 0
    · simp only [collectEmoji, hse, hcount, if_true, Except.ok.injEq] at hc
      subst hc
      exact h
    · simp only [collectEmoji, hse, hcount, if_false] at hc
      exact collectUsers_notMem _ u (hb e.name e.id) acc rs h hc

theorem foldlM_collectEmoji_nodup (env : Env) (mid : String)
    (summaries : List ReactionSummary) :
    ∀ acc rs : List String, acc.Nodup →
      summaries.foldlM (collectEmoji env mid) acc = .ok rs → rs.Nodup := by
  induction summaries with
  | nil =>
    intro acc rs h hc
    rw [List.foldlM_nil] at hc
    simp [pure, Except.pure] at hc
    subst hc
    exact h
  | cons s ss ih =>
    intro acc rs h hc
    rw [List.foldlM_cons] at hc
    cases he : collectEmoji env mid acc s with
    | error e => rw [he] at hc; simp [Bind.bind, Except.bind] at hc
    | ok acc2 =>
      rw [he] at hc
      simp only [Bind.bind, Except.bind] at hc
      exact ih acc2 rs (collectEmoji_nodup env mid acc s acc2 h he) hc

theorem foldlM_collectEmoji_notMem (env : Env) (mid : String) (u : String)
    (hb : ∀ name eid, ∀ p ∈ env.reactPages mid name eid, ∀ usr ∈ p.body,
      usr.id = u → usr.bot = true)
    (summaries : List ReactionSummary) :
    ∀ acc rs : List String, u ∉ acc →
      summaries.foldlM (collectEmoji env mid) acc = .ok rs → u ∉ rs := by
  induction summaries with
  | nil =>
    intro acc rs h hc
    rw [List.foldlM_nil] at hc
    simp [pure, Except.pure] at hc
    subst hc
    exact h
  | cons s ss ih =>
    intro acc rs h hc
    rw [List.foldlM_cons] at hc
    cases he : collectEmoji env mid acc s with
    | error e => rw [he] at hc; simp [Bind.bind, Except.bind] at hc
    | ok acc2 =>
      rw [he] at hc
      simp only [Bind.bind, Except.bind] at hc
      exact ih acc2 rs (collectEmoji_notMem env mid u hb acc s acc2 h he) hc

theorem getReactors_nodup (env : Env) (m : Msg) (rs : List String)
    (h : getReactorsForMessage env m = .ok rs) : rs.Nodup := by
  by_cases hre : m.reactions.isEmpty
  · simp only [getReactorsForMessage, hre, if_true, Except.ok.injEq] at h
    subst h
    exact List.nodup_nil
  · simp only [getReactorsForMessage, hre, if_false] at h
    exact foldlM_collectEmoji_nodup env m.id m.reactions [] rs List.nodup_nil h

theorem getReactors_notMem (env : Env) (u : String)
    (hb : ∀ mid name eid, ∀ p ∈ env.reactPages mid name eid, ∀ usr ∈ p.body,
      usr.id = u → usr.bot = true)
    (m : Msg) (rs : List String) (h : getReactorsForMessage env m = .ok rs) : u ∉ rs := by
  by_cases hre : m.reactions.isEmpty
  · simp only [getReactorsForMessage, hre, if_true, Except.ok.injEq] at h
    subst h
    exact List.not_mem_nil u
  · simp only [getReactorsForMessage, hre, if_false] at h
    exact foldlM_collectEmoji_notMem env m.id u (hb m.id) m.reactions [] rs
      (List.not_mem_nil u) h

/-! ### Lemmas: the scorer -/

theorem ledgerGet_scoreMsg (rs : List String) :
    ∀ (st : Ledger × List String) (u : String), rs.Nodup →
      ledgerGet (scoreMsg st rs).1 u = ledgerGet st.1 u + (if u ∈ rs then 1 else 0) := by
  induction rs with
  | nil => intro st u _; simp [scoreMsg]
  | cons v vs ih =>
    intro st u hnd
    rcases List.nodup_cons.mp hnd with ⟨hv, hnd2⟩
    have hstep : scoreMsg st (v :: vs) = scoreMsg (scoreStep st v) vs := rfl
    rw [hstep, ih (scoreStep st v) u hnd2]
    by_cases huv : u = v
    · subst huv
      simp [scoreStep, ledgerGet_set_self, hv]
    · simp [scoreStep, ledgerGet_set_ne st.1 v _ u huv, huv]

theorem scoreMsg_keys (rs : List String) :
    ∀ st : Ledger × List String, st.1.map Prod.fst = st.2 →
      (scoreMsg st rs).1.map Prod.fst = (scoreMsg st rs).2 := by
  induction rs with
  | nil => intro st h; exact h
  | cons v vs ih =>
    intro st h
    exact ih (scoreStep st v) (ledgerSet_keys_setAdd st.1 st.2 v _ h)

theorem scoreMsg_notMem (rs : List String) :
    ∀ (st : Ledger × List String) (u : String), u ∉ rs →
      u ∉ st.1.map Prod.fst → u ∉ st.2 →
      u ∉ (scoreMsg st rs).1.map Prod.fst ∧ u ∉ (scoreMsg st rs).2 := by
  induction rs with
  | nil => intro st u _ h1 h2; exact ⟨h1, h2⟩
  | cons v vs ih =>
    intro st u hu h1 h2
    have huv : u ≠ v := fun he => hu (he ▸ List.mem_cons_self v vs)
    refine ih (scoreStep st v) u (fun hm => hu (List.mem_cons_of_mem v hm)) ?_ ?_
    · rw [show (scoreStep st v).1 = ledgerSet st.1 v (ledgerGet st.1 v + 1) from rfl,
        ledgerSet_keys]
      by_cases hc : (st.1.map Prod.fst).contains v
      · rw [if_pos hc]
        exact h1
      · simp only [hc, Bool.false_eq_true, if_false, List.mem_append, List.mem_singleton]
        rintro (hm | hm)
        · exact h1 hm
        · exact huv hm
    · rw [show (scoreStep st v).2 = setAdd st.2 v from rfl, mem_setAdd]
      rintro (hm | hm)
      · exact h2 hm
      · exact huv hm

/-! ### Lemmas: the scan fold of `runScan` -/

theorem scanStep_cases (env : Env) (st0 st1 : Ledger × List String) (m : Msg)
    (h : scanStep env st0 m = .ok st1) :
    (m.reactions.isEmpty = true ∧ st1 = st0) ∨
      (∃ rs, getReactorsForMessage env m = .ok rs ∧ st1 = scoreMsg st0 rs) := by
  by_cases hre : m.reactions.isEmpty
  · left
    refine ⟨hre, ?_⟩
    simp only [scanStep, hre, if_true, Except.ok.injEq] at h
    exact h.symm
  · right
    cases hr : getReactorsForMessage env m with
    | error e => simp [scanStep, hre, hr, Except.map] at h
    | ok rs =>
      simp [scanStep, hre, hr, Except.map] at h
      subst h
      exact ⟨rs, rfl, rfl⟩

theorem reactsTo_empty (env : Env) (m : Msg) (u : String) (hre : m.reactions.isEmpty = true) :
    reactsTo env m u = false := by
  simp [reactsTo, getReactorsForMessage, hre]

theorem reactsTo_ok (env : Env) (m : Msg) (u : String) (rs : List String)
    (hr : getReactorsForMessage env m = .ok rs) : reactsTo env m u = decide (u ∈ rs) := by
  simp [reactsTo, hr]

theorem scanFold_get (env : Env) (msgs : List Msg) :
    ∀ st0 st : Ledger × List String, msgs.foldlM (scanStep env) st0 = .ok st → ∀ u,
      ledgerGet st.1 u = ledgerGet st0.1 u + msgs.countP (fun m => reactsTo env m u) := by
  induction msgs with
  | nil =>
    intro st0 st h u
    rw [List.foldlM_nil] at h
    simp [pure, Except.pure] at h
    subst h
    simp
  | cons m ms ih =>
    intro st0 st h u
    rw [List.foldlM_cons] at h
    cases hstep : scanStep env st0 m with
    | error e => rw [hstep] at h; simp [Bind.bind, Except.bind] at h
    | ok st1 =>
      rw [hstep] at h
      simp only [Bind.bind, Except.bind] at h
      have hrec := ih st1 st h u
      rcases scanStep_cases env st0 st1 m hstep with ⟨hre, rfl⟩ | ⟨rs, hrs, rfl⟩
      · rw [hrec, List.countP_cons, reactsTo_empty env m u hre]
        simp [Nat.add_assoc]
      · have hnd : rs.Nodup := getReactors_nodup env m rs hrs
        rw [hrec, ledgerGet_scoreMsg rs st0 u hnd, List.countP_cons,
          reactsTo_ok env m u rs hrs]
        by_cases hu : u ∈ rs
        · simp [hu]
          omega
        · simp [hu]

theorem scanFold_keys (env : Env) (msgs : List Msg) :
    ∀ st0 st : Ledger × List String, st0.1.map Prod.fst = st0.2 →
      msgs.foldlM (scanStep env) st0 = .ok st → st.1.map Prod.fst = st.2 := by
  induction msgs with
  | nil =>
    intro st0 st hk h
    rw [List.foldlM_nil] at h
    simp [pure, Except.pure] at h
    subst h
    exact hk
  | cons m ms ih =>
    intro st0 st hk h
    rw [List.foldlM_cons] at h
    cases hstep : scanStep env st0 m with
    | error e => rw [hstep] at h; simp [Bind.bind, Except.bind] at h
    | ok st1 =>
      rw [hstep] at h
      simp only [Bind.bind, Except.bind] at h
      rcases scanStep_cases env st0 st1 m hstep with ⟨_, rfl⟩ | ⟨rs, _, rfl⟩
      · exact ih _ st hk h
      · exact ih _ st (scoreMsg_keys rs _ hk) h

theorem scanFold_notMem (env : Env) (u : String)
    (hb : ∀ mid name eid, ∀ p ∈ env.reactPages mid name eid, ∀ usr ∈ p.body,
      usr.id = u → usr.bot = true)
    (msgs : List Msg) :
    ∀ st0 st : Ledger × List String, u ∉ st0.1.map Prod.fst → u ∉ st0.2 →
      msgs.foldlM (scanStep env) st0 = .ok st →
      u ∉ st.1.map Prod.fst ∧ u ∉ st.2 := by
  induction msgs with
  | nil =>
    intro st0 st h1 h2 h
    rw [List.foldlM_nil] at h
    simp [pure, Except.pure] at h
    subst h
    exact ⟨h1, h2⟩
  | cons m ms ih =>
    intro st0 st h1 h2 h
    rw [List.foldlM_cons] at h
    cases hstep : scanStep env st0 m with
    | error e => rw [hstep] at h; simp [Bind.bind, Except.bind] at h
    | ok st1 =>
      rw [hstep] at h
      simp only [Bind.bind, Except.bind] at h
      rcases scanStep_cases env st0 st1 m hstep with ⟨_, rfl⟩ | ⟨rs, hrs, rfl⟩
      · exact ih _ st h1 h2 h
      · have hnotm := getReactors_notMem env u hb m rs hrs
        rcases scoreMsg_notMem rs _ u hnotm h1 h2 with ⟨h1', h2'⟩
        exact ih _ st h1' h2' h

/-! ### Lemmas: decimal rendering of status codes is injective -/

theorem digitChar_inj_lt10 :
    ∀ a b : Fin 10, Nat.digitChar a.val = Nat.digitChar b.val → a = b := by decide

theorem decChars_lt (n : Nat) (h : n < 10) : decChars n = [Nat.digitChar n] := by
  rw [decChars]
  simp [h]

theorem decChars_ge (n : Nat) (h : ¬ n < 10) :
    decChars n = decChars (n / 10) ++ [Nat.digitChar (n % 10)] := by
  rw [decChars]
  simp [h]

theorem decChars_ne_nil (n : Nat) : decChars n ≠ [] := by
  by_cases h : n < 10
  · simp [decChars_lt n h]
  · simp [decChars_ge n h]

theorem decChars_inj : ∀ m n : Nat, decChars m = decChars n → m = n := by
  intro m
  induction m using Nat.strong_induction_on with
  | _ m ih =>
    intro n h
    by_cases hm : m < 10 <;> by_cases hn : n < 10
    · rw [decChars_lt m hm, decChars_lt n hn] at h
      simp only [List.cons.injEq, and_true] at h
      have := digitChar_inj_lt10 ⟨m, hm⟩ ⟨n, hn⟩ h
      simpa using congrArg Fin.val this
    · rw [decChars_lt m hm, decChars_ge n hn] at h
      have hl := congrArg List.length h
      have hp : 0 < (decChars (n / 10)).length :=
        List.length_pos.mpr (decChars_ne_nil (n / 10))
      simp only [List.length_singleton, List.length_append] at hl
      omega
    · rw [decChars_ge m hm, decChars_lt n hn] at h
      have hl := congrArg List.length h
      have hp : 0 < (decChars (m / 10)).length :=
        List.length_pos.mpr (decChars_ne_nil (m / 10))
      simp only [List.length_singleton, List.length_append] at hl
      omega
    · rw [decChars_ge m hm, decChars_ge n hn] at h
      have hrev := congrArg List.reverse h
      simp only [List.reverse_append, List.reverse_singleton, List.singleton_append,
        List.cons.injEq] at hrev
      rcases hrev with ⟨hdig, htail⟩
      have hmod : m % 10 = n % 10 := by
        have := digitChar_inj_lt10 ⟨m % 10, Nat.mod_lt m (by omega)⟩
          ⟨n % 10, Nat.mod_lt n (by omega)⟩ hdig
        simpa using congrArg Fin.val this
      have hdiv : m / 10 = n / 10 :=
        ih (m / 10) (Nat.div_lt_self (by omega) (by omega)) (n / 10)
          (List.reverse_injective htail)
      omega

theorem toDigitsCore_eq_decChars (fuel : Nat) :
    ∀ n acc, n < fuel → Nat.toDigitsCore 10 fuel n acc = decChars n ++ acc := by
  induction fuel with
  | zero => intro n acc h; omega
  | succ f ih =>
    intro n acc h
    rw [Nat.toDigitsCore]
    by_cases h0 : n / 10 = 0
    · have hn : n < 10 := by omega
      simp only [h0, if_true, decChars_lt n hn, Nat.mod_eq_of_lt hn, List.singleton_append]
    · have hn : ¬ n < 10 := by
        intro hc
        exact h0 (Nat.div_eq_of_lt hc)
      have hlt : n / 10 < f := by
        have h1 : n / 10 < n := Nat.div_lt_self (by omega) (by omega)
        omega
      simp only [h0, if_false, ih (n / 10) (Nat.digitChar (n % 10) :: acc) hlt,
        decChars_ge n hn, List.append_assoc, List.singleton_append]

theorem natRepr_eq_decChars (n : Nat) : Nat.repr n = (decChars n).asString := by
  rw [Nat.repr, Nat.toDigits, toDigitsCore_eq_decChars (n + 1) n [] (Nat.lt_succ_self n),
    List.append_nil]

theorem natRepr_inj (m n : Nat) (h : Nat.repr m = Nat.repr n) : m = n := by
  rw [natRepr_eq_decChars, natRepr_eq_decChars] at h
  have hd : decChars m = decChars n := by
    have := congrArg String.data h
    simpa [List.asString] using this
  exact decChars_inj m n hd

/-! ### Lemmas: the `topN` order -/

theorem topNLe_trans (a b c : String × Nat) (hab : topNLe a b = true)
    (hbc : topNLe b c = true) : topNLe a c = true := by
  simp only [topNLe, Bool.or_eq_true, Bool.and_eq_true, decide_eq_true_eq] at *
  rcases hab with h1 | ⟨h1, h2⟩ <;> rcases hbc with h3 | ⟨h3, h4⟩
  · left; omega
  · left; omega
  · left; omega
  · right; exact ⟨h1.trans h3, le_trans h2 h4⟩

theorem topNLe_total (a b : String × Nat) : (topNLe a b || topNLe b a) = true := by
  simp only [topNLe, Bool.or_eq_true, Bool.and_eq_true, decide_eq_true_eq]
  by_cases h : a.2 = b.2
  · rcases le_total a.1 b.1 with hs | hs
    · exact Or.inl (Or.inr ⟨h, hs⟩)
    · exact Or.inr (Or.inr ⟨h.symm, hs⟩)
  · rcases Nat.lt_or_ge a.2 b.2 with hl | hl
    · exact Or.inr (Or.inl hl)
    · exact Or.inl (Or.inl (lt_of_le_of_ne hl (fun he => h he.symm)))

theorem topNLe_antisymm (a b : String × Nat) (hab : topNLe a b = true)
    (hba : topNLe b a = true) : a = b := by
  simp only [topNLe, Bool.or_eq_true, Bool.and_eq_true, decide_eq_true_eq] at hab hba
  have h2 : a.2 = b.2 := by
    rcases hab with h1 | ⟨h1, _⟩ <;> rcases hba with h3 | ⟨h3, _⟩ <;> omega
  have h1 : a.1 = b.1 := by
    rcases hab with h1 | ⟨_, hle1⟩
    · omega
    · rcases hba with h3 | ⟨_, hle2⟩
      · omega
      · exact le_antisymm hle1 hle2
  exact Prod.ext h1 h2

theorem mergeSort_topNLe_sorted (l : Ledger) :
    List.Pairwise (fun a b => topNLe a b = true) (l.mergeSort topNLe) :=
  List.sorted_mergeSort (fun a b c => topNLe_trans a b c) topNLe_total l

theorem mergeSort_topNLe_perm_eq (l1 l2 : Ledger) (hp : l1.Perm l2) :
    l1.mergeSort topNLe = l2.mergeSort topNLe := by
  haveI : IsAntisymm (String × Nat) (fun a b => topNLe a b = true) :=
    ⟨fun a b => topNLe_antisymm a b⟩
  exact List.eq_of_perm_of_sorted
    ((List.mergeSort_perm l1 _).trans (hp.trans (List.mergeSort_perm l2 _).symm))
    (mergeSort_topNLe_sorted l1) (mergeSort_topNLe_sorted l2)

/-! ### Lemmas: glue between `runScan` and its phases -/

theorem runScanLedger_ok (env : Env) (w : Int) (pts : Ledger) (seen : List String)
    (h : runScanLedger env w = .ok (pts, seen)) :
    ∃ msgs, iterateMessages (env.nowMs - w) env.msgPages = .ok msgs ∧
      msgs.foldlM (scanStep env) ([], []) = .ok (pts, seen) := by
  unfold runScanLedger at h
  cases hm : iterateMessages (env.nowMs - w) env.msgPages with
  | error e => rw [hm] at h; simp [Bind.bind, Except.bind] at h
  | ok msgs =>
    rw [hm] at h
    simp only [Bind.bind, Except.bind] at h
    exact ⟨msgs, rfl, h⟩

theorem runScan_ok_inv (env : Env) (w : Int) (res : ScanResult)
    (hR : runScan env w = .ok res) :
    ∃ pts seen, runScanLedger env w = .ok (pts, seen) ∧
      res = { rows := topN pts 10, names := buildNameMap env.guildId seen,
              unique := seen.length } := by
  by_cases hg : env.botToken = "" ∨ env.sourceChannel = ""
  · simp [runScan, hg] at hR
  · simp only [runScan, hg, if_false] at hR
    cases hL : runScanLedger env w with
    | error e => rw [hL] at hR; simp [Except.map] at hR
    | ok st =>
      rw [hL] at hR
      simp only [Except.map, Except.ok.injEq] at hR
      exact ⟨st.1, st.2, by rw [Prod.mk.eta], hR.symm⟩

theorem calculatePoints_get (ms : List Msg) (u : String) :
    ledgerGet (calculatePoints ms) u =
      ms.countP (fun m => decide (m.author = u) && !m.reactions.isEmpty) := by
  have key : ∀ (l : List Msg) (init : Ledger),
      ledgerGet (l.foldl (fun pts m => if m.reactions.isEmpty then pts
          else ledgerSet pts m.author (ledgerGet pts m.author + 1)) init) u =
        ledgerGet init u +
          l.countP (fun m => decide (m.author = u) && !m.reactions.isEmpty) := by
    intro l
    induction l with
    | nil => intro init; simp
    | cons m ms2 ih =>
      intro init
      rw [List.foldl_cons, List.countP_cons, ih]
      by_cases hre : m.reactions.isEmpty
      · simp [hre]
      · by_cases hau : m.author = u
        · subst hau
          simp [hre, ledgerGet_set_self]
          omega
        · simp [hre, hau, ledgerGet_set_ne init m.author _ u (fun he => hau he.symm)]
  simpa [calculatePoints, ledgerGet] using key ms []

/-! ### Claim theorems -/

/-- Claim C1 (counterexample): in the `leaderboard.js` variant the claim is
false.  For a single in-window message authored by `alice` whose only
non-bot reactor is `bob`, `calculatePoints` credits `alice` with one point
even though she reacted to nothing, and credits `bob` — the sole reactor —
with zero, so a user's point total does not equal the number of messages on
which they are a non-bot reactor. -/
theorem c1_counterexample :
    ledgerGet (calculatePoints c1msgs) "bob" ≠
        c1msgs.countP (fun m => (c1reactorsOf m.id).contains "bob") ∧
      ledgerGet (calculatePoints c1msgs) "alice" = 1 ∧
      c1msgs.countP (fun m => (c1reactorsOf m.id).contains "alice") = 0 := by
  refine ⟨by decide, by decide, by decide⟩

/-- Claim C1 (amended): in the worker variant, every yielded message is
inside the window and a user's final point total equals the number of
yielded messages on which that user is resolved as a non-bot reactor on at
least one emoji — one point per message, regardless of how many reactions,
emoji, or reaction events the user placed.  In the `leaderboard.js`
variant, points instead go to the message author: one point per message
that carries at least one reaction summary. -/
theorem c1_amended (env : Env) (w : Int) (msgs : List Msg) (pts : Ledger)
    (seen : List String)
    (hm : iterateMessages (env.nowMs - w) env.msgPages = .ok msgs)
    (hL : runScanLedger env w = .ok (pts, seen)) :
    (∀ m ∈ msgs, env.nowMs - w ≤ m.ts) ∧
      (∀ u, ledgerGet pts u = msgs.countP (fun m => reactsTo env m u)) ∧
      (∀ (ms : List Msg) (u : String),
        ledgerGet (calculatePoints ms) u =
          ms.countP (fun m => decide (m.author = u) && !m.reactions.isEmpty)) := by
  obtain ⟨msgs', hm', hfold⟩ := runScanLedger_ok env w pts seen hL
  rw [hm] at hm'
  simp only [Except.ok.injEq] at hm'
  subst hm'
  refine ⟨iterateMessages_fresh _ _ _ hm, ?_, fun ms u => calculatePoints_get ms u⟩
  intro u
  have h := scanFold_get env msgs ([], []) (pts, seen) hfold u
  simpa [ledgerGet] using h

/-- Claim C1 (witness): the amended worker-side rule evaluated on a
concrete environment where `bob` reacted to the one in-window message. -/
theorem c1_witness :
    iterateMessages (c1env.nowMs - 500) c1env.msgPages =
        .ok [⟨"m1", 950, "a", [⟨1, some ⟨"s", none⟩⟩]⟩] ∧
      runScanLedger c1env 500 = .ok ([("bob", 1)], ["bob"]) ∧
      ledgerGet [("bob", 1)] "bob" =
        List.countP (fun m => reactsTo c1env m "bob")
          [⟨"m1", 950, "a", [⟨1, some ⟨"s", none⟩⟩]⟩] :=
  ⟨rfl, rfl,
    (c1_amended c1env 500 [⟨"m1", 950, "a", [⟨1, some ⟨"s", none⟩⟩]⟩]
      [("bob", 1)] ["bob"] rfl rfl).2.1 "bob"⟩

/-- Claim C2 (confirmed): for a delivered page that is strictly decreasing
in timestamp and contains a message older than the window start, both
paginator variants yield exactly the page's prefix of in-window messages
(nothing at or past the first stale message) and request no further page:
the result does not depend on the remaining pages.  The worker variant
fires its stale `return`; the `leaderboard.js` variant pushes the filtered
remainder, which under the sortedness assumption is the same prefix, and
breaks. -/
theorem c2_confirmed (since : Int) (r : MsgResponse)
    (hok : respOkM r = true)
    (hsorted : r.body.Pairwise (fun a b => b.ts < a.ts))
    (hstale : ∃ m ∈ r.body, m.ts < since) :
    (∀ rest, iterateMessages since (r :: rest) =
        .ok (r.body.takeWhile (fun m => decide (since ≤ m.ts)))) ∧
      (∀ rest limit acc, getRecentGo since limit (r :: rest) acc =
        .ok (acc ++ r.body.takeWhile (fun m => decide (since ≤ m.ts)))) := by
  constructor
  · intro rest
    exact iterateMessages_stale since r rest hok hstale
  · intro rest limit acc
    exact getRecentGo_stale since limit r rest acc hok hsorted hstale

/-- Claim C2 (witness): both variants evaluated on a concrete sorted page
holding one in-window and one stale message. -/
theorem c2_witness :
    respOkM c2resp = true ∧
      (∃ m ∈ c2resp.body, m.ts < 10) ∧
      iterateMessages 10 [c2resp] =
        .ok (c2resp.body.takeWhile (fun m => decide ((10 : Int) ≤ m.ts))) ∧
      getRecentGo 10 100 [c2resp] [] =
        .ok ([] ++ c2resp.body.takeWhile (fun m => decide ((10 : Int) ≤ m.ts))) :=
  ⟨by decide, by decide,
    (c2_confirmed 10 c2resp (by decide) (by decide) (by decide)).1 [],
    (c2_confirmed 10 c2resp (by decide) (by decide) (by decide)).2 [] 100 []⟩

unseal List.merge List.mergeSort in
/-- Claim C3 (counterexample): the `leaderboard.js` renderer breaks ties by
ledger insertion order, not by ascending user identifier — two ledgers with
the same entries in different iteration orders render different embeds, and
the tied entries come out in insertion order (`b` before `a`). -/
theorem c3_counterexample :
    generateLeaderboardEmbed [("b", 1), ("a", 1)] "T" ≠
        generateLeaderboardEmbed [("a", 1), ("b", 1)] "T" ∧
      (generateLeaderboardEmbed [("b", 1), ("a", 1)] "T").fields.map EmbedField.value =
        ["<@b> - 1 points", "<@a> - 1 points"] := by
  refine ⟨by decide, by decide⟩

/-- Claim C3 (amended): the worker variant's `topN` satisfies the claim:
for every (non-empty) ledger and every `n`, the selection holds at most `n`
entries, is sorted by points descending with ties broken by ascending user
identifier, and is invariant under permuting the ledger's iteration order.
The `leaderboard.js` renderer sorts by points only and keeps ties in
insertion order. -/
theorem c3_amended (l : Ledger) (_hne : l ≠ []) (n : Nat) :
    (topN l n).length ≤ n ∧
      List.Pairwise (fun a b => topNLe a b = true) (topN l n) ∧
      (∀ l', l.Perm l' → topN l n = topN l' n) := by
  refine ⟨List.length_take_le n _, ?_, ?_⟩
  · exact List.Pairwise.sublist (List.take_sublist n _) (mergeSort_topNLe_sorted l)
  · intro l' hp
    unfold topN
    rw [mergeSort_topNLe_perm_eq l l' hp]

/-- Claim C3 (witness): `topN` applied to two iteration orders of the same
tied two-entry ledger. -/
theorem c3_witness :
    ([("b", 1), ("a", 1)] : Ledger) ≠ [] ∧
      topN [("b", 1), ("a", 1)] 2 = topN [("a", 1), ("b", 1)] 2 :=
  ⟨by decide, (c3_amended [("b", 1), ("a", 1)] (by decide) 2).2.2
    [("a", 1), ("b", 1)] (by decide)⟩

/-- Claim C4 (counterexample): with an explicit cap of 1, a single page
holding two in-window messages followed by a stale one makes
`getRecentMessages` return two messages: the stale-page branch appends the
in-window remainder without enforcing the cap. -/
theorem c4_counterexample :
    ¬ (∀ l, getRecentMessages msInWeek (some 1) c4pages = .ok l → l.length ≤ 1) :=
  fun h =>
    absurd (h [⟨"a", 5, "x", []⟩, ⟨"b", 4, "x", []⟩] (by decide)) (by decide)

/-- Claim C4 (amended): the cap is enforced on every exit except the
straddling-page branch: whenever every fetched message lies inside the
window (so the stale branch never fires), iteration yields at most `limit`
messages — the cap and the empty-page stop both apply, whichever triggers
first.  When a page straddles the window boundary, its in-window remainder
is appended without applying the cap, so the result may exceed it. -/
theorem c4_amended (nowMs : Int) (limit : Nat) (pages : List MsgResponse)
    (hfresh : ∀ r ∈ pages, ∀ m ∈ r.body, nowMs - msInWeek ≤ m.ts)
    (l : List Msg) (h : getRecentMessages nowMs (some limit) pages = .ok l) :
    l.length ≤ limit :=
  getRecentGo_length (nowMs - msInWeek) limit pages hfresh [] l (Nat.zero_le limit) h

/-- Claim C4 (witness): the amended cap bound evaluated on a fully
in-window page with cap 2. -/
theorem c4_witness :
    (∀ r ∈ c4freshPages, ∀ m ∈ r.body, msInWeek - msInWeek ≤ m.ts) ∧
      ([⟨"a", 5, "x", []⟩, ⟨"b", 4, "x", []⟩] : List Msg).length ≤ 2 :=
  ⟨by decide,
    c4_amended msInWeek 2 c4freshPages (by decide)
      [⟨"a", 5, "x", []⟩, ⟨"b", 4, "x", []⟩] (by decide)⟩

/-- Claim C5 (counterexample): the `leaderboard.js` variant reports
`response.statusText`, not the status code: two failing responses with
different status codes but the same status text produce identical scan
errors, so the raised error does not identify the failing status code. -/
theorem c5_counterexample :
    getRecentMessages 0 none [⟨404, "Oops", []⟩] =
        getRecentMessages 0 none [⟨500, "Oops", []⟩] ∧
      (404 : Nat) ≠ 500 := by
  refine ⟨by decide, by decide⟩

/-- Claim C5 (amended): any non-success response aborts the scan with an
error and is never swallowed: the worker variant's message-page and
reaction-user-page errors embed the decimal status code (and that rendering
is injective, so the error identifies the code), and the failure propagates
so that `runScan` produces an error and no result; the `leaderboard.js`
variant aborts with an error embedding only the status text. -/
theorem c5_amended :
    (∀ (r : MsgResponse) (rest : List MsgResponse) (since : Int), respOkM r = false →
        iterateMessages since (r :: rest) =
          .error ("Get messages failed: " ++ Nat.repr r.status)) ∧
      (∀ (r : UserResponse) (rest : List UserResponse) (acc : List String),
        respOkU r = false →
        collectUsers acc (r :: rest) =
          .error ("Get reactions failed: " ++ Nat.repr r.status)) ∧
      (∀ s1 s2 : Nat,
        "Get messages failed: " ++ Nat.repr s1 = "Get messages failed: " ++ Nat.repr s2 →
          s1 = s2) ∧
      (∀ (r : MsgResponse) (rest : List MsgResponse) (weekAgo : Int) (limit : Nat)
          (acc : List Msg), respOkM r = false →
        getRecentGo weekAgo limit (r :: rest) acc =
          .error ("Failed to fetch messages: " ++ r.statusText)) ∧
      (∀ (env : Env) (w : Int) (r : MsgResponse) (rest : List MsgResponse),
        env.msgPages = r :: rest → respOkM r = false →
        env.botToken ≠ "" → env.sourceChannel ≠ "" →
        runScan env w = .error ("Get messages failed: " ++ Nat.repr r.status)) := by
  refine ⟨?_, ?_, ?_, ?_, ?_⟩
  · intro r rest since hok
    simp [iterateMessages, hok]
  · intro r rest acc hok
    simp [collectUsers, hok]
  · intro s1 s2 h
    have hd := congrArg String.data h
    rw [String.data_append, String.data_append] at hd
    have h2 := List.append_cancel_left hd
    rw [natRepr_eq_decChars, natRepr_eq_decChars] at h2
    have h3 : decChars s1 = decChars s2 := by simpa [List.asString] using h2
    exact decChars_inj s1 s2 h3
  · intro r rest weekAgo limit acc hok
    simp [getRecentGo, hok]
  · intro env w r rest hmp hok ht hs
    have h1 : iterateMessages (env.nowMs - w) env.msgPages =
        .error ("Get messages failed: " ++ Nat.repr r.status) := by
      rw [hmp]
      simp [iterateMessages, hok]
    have h2 : runScanLedger env w =
        .error ("Get messages failed: " ++ Nat.repr r.status) := by
      unfold runScanLedger
      rw [h1]
      simp [Bind.bind, Except.bind]
    rw [runScan, if_neg (by simp [ht, hs]), h2]
    rfl

/-- Claim C5 (witness): the worker message-page error conjunct evaluated on
a failing status-500 response. -/
theorem c5_witness :
    respOkM (⟨500, "ISE", ([] : List Msg)⟩ : MsgResponse) = false ∧
      iterateMessages 0 [⟨500, "ISE", []⟩] =
        .error ("Get messages failed: " ++ Nat.repr 500) :=
  ⟨by decide, c5_amended.1 ⟨500, "ISE", []⟩ [] 0 (by decide)⟩

/-- Claim C6 (confirmed): a user whose every reaction-user record carries
the bot flag is never added to any message's reactor set, never obtains a
ledger entry, never enters the distinct-reactor set counted by
`uniqueReactorCount`, and never appears in the ranked rows. -/
theorem c6_confirmed (env : Env) (u : String)
    (hb : ∀ mid name eid, ∀ p ∈ env.reactPages mid name eid, ∀ usr ∈ p.body,
      usr.id = u → usr.bot = true) :
    (∀ m rs, getReactorsForMessage env m = .ok rs → u ∉ rs) ∧
      (∀ w pts seen, runScanLedger env w = .ok (pts, seen) →
        u ∉ pts.map Prod.fst ∧ u ∉ seen) ∧
      (∀ w res, runScan env w = .ok res → u ∉ res.rows.map Prod.fst) := by
  have hset : ∀ w pts seen, runScanLedger env w = .ok (pts, seen) →
      u ∉ pts.map Prod.fst ∧ u ∉ seen := by
    intro w pts seen hL
    obtain ⟨msgs, _, hfold⟩ := runScanLedger_ok env w pts seen hL
    exact scanFold_notMem env u hb msgs ([], []) (pts, seen) (by simp) (by simp) hfold
  refine ⟨fun m rs h => getReactors_notMem env u hb m rs h, hset, ?_⟩
  intro w res hR
  obtain ⟨pts, seen, hL, hres⟩ := runScan_ok_inv env w res hR
  have hkeys : u ∉ pts.map Prod.fst := (hset w pts seen hL).1
  subst hres
  intro hmem
  simp only [List.mem_map] at hmem
  rcases hmem with ⟨p, hp, hpu⟩
  have hp2 : p ∈ pts.mergeSort topNLe := List.mem_of_mem_take hp
  have hp3 : p ∈ pts := (List.mergeSort_perm pts topNLe).mem_iff.mp hp2
  exact hkeys (List.mem_map.mpr ⟨p, hp3, hpu⟩)

/-- Claim C6 (witness): the bot account `b1` of `c6env` reacted to the only
message, yet the scan ledger and reactor set hold only the human `h1`. -/
theorem c6_witness :
    (∀ mid name eid, ∀ p ∈ c6env.reactPages mid name eid, ∀ usr ∈ p.body,
        usr.id = "b1" → usr.bot = true) ∧
      "b1" ∉ ([("h1", 1)] : Ledger).map Prod.fst ∧ "b1" ∉ (["h1"] : List String) := by
  have hb : ∀ mid name eid, ∀ p ∈ c6env.reactPages mid name eid, ∀ usr ∈ p.body,
      usr.id = "b1" → usr.bot = true := by
    intro mid name eid p hp usr hu hid
    simp only [c6env] at hp
    by_cases hm : mid = "m1"
    · rw [if_pos hm] at hp
      simp only [List.mem_singleton] at hp
      subst hp
      simp only [List.mem_cons, List.not_mem_nil, or_false] at hu
      rcases hu with rfl | rfl
      · rfl
      · exact absurd hid (by decide)
    · rw [if_neg hm] at hp
      cases hp
  exact ⟨hb, (c6_confirmed c6env "b1" hb).2.1 500 [("h1", 1)] ["h1"] (by decide)⟩

unseal List.merge List.mergeSort in
/-- Claim C7 (counterexample): the rendered embed carries the render-time
clock reading in its `timestamp` field, so two scans over an identical
message history, reaction state and resolver, run at different clock
instants, produce different rendered output — byte-identical output needs
an identical clock reading as well. -/
theorem c7_counterexample :
    c7base.msgPages = c7later.msgPages ∧
      c7base.reactPages = c7later.reactPages ∧
      c7base.nowMs = c7later.nowMs ∧
      scanEmbed c7base 500 ≠ scanEmbed c7later 500 := by
  refine ⟨rfl, rfl, rfl, by decide⟩

/-- Claim C7 (amended): the scan-and-render pipeline is deterministic in
its observable inputs: two environments agreeing on credentials, source
channel, message history, reaction state and clock readings (the resolver
is the fixed mention-builder) produce identical rendered embeds, whatever
their guild or destination channel. -/
theorem c7_amended (e1 e2 : Env) (w : Int)
    (ht : e1.botToken = e2.botToken) (hs : e1.sourceChannel = e2.sourceChannel)
    (hn : e1.nowMs = e2.nowMs) (hi : e1.nowIso = e2.nowIso)
    (hm : e1.msgPages = e2.msgPages) (hr : e1.reactPages = e2.reactPages) :
    scanEmbed e1 w = scanEmbed e2 w := by
  cases e1
  cases e2
  dsimp only at ht hs hn hi hm hr
  subst ht
  subst hs
  subst hn
  subst hi
  subst hm
  subst hr
  rfl

/-- Claim C7 (witness): two environments identical except for guild and
destination channel render the same embed. -/
theorem c7_witness :
    c7base.msgPages = c7othercfg.msgPages ∧
      c7base.guildId ≠ c7othercfg.guildId ∧
      scanEmbed c7base 500 = scanEmbed c7othercfg 500 :=
  ⟨rfl, by decide, c7_amended c7base c7othercfg 500 rfl rfl rfl rfl rfl rfl⟩

unseal List.merge List.mergeSort in
/-- Claim C8 (counterexample): the empty-ledger placeholder emitted by the
worker renderer is the literal `"No points this week."` — capitalised and
with a trailing period — not the claimed literal `"no points this week"`. -/
theorem c8_counterexample :
    (scanEmbed c8env 100).map Embed.description ≠ Except.ok "no points this week" ∧
      (scanEmbed c8env 100).map Embed.description = Except.ok "No points this week." := by
  refine ⟨by decide, by decide⟩

/-- Claim C8 (amended): whenever the scan's ledger comes out empty (for
example because every fetched message lies outside the window), the
rendered description is the single literal placeholder
`"No points this week."` and the reported unique-reactor count is 0. -/
theorem c8_amended (env : Env) (w : Int) (pts : Ledger) (seen : List String)
    (res : ScanResult) (hL : runScanLedger env w = .ok (pts, seen))
    (hR : runScan env w = .ok res) (hp : pts = []) :
    (postFancyLeaderboardEmbed res env.nowIso).description = "No points this week." ∧
      res.unique = 0 := by
  obtain ⟨pts', seen', hL', hres⟩ := runScan_ok_inv env w res hR
  rw [hL] at hL'
  simp only [Except.ok.injEq, Prod.mk.injEq] at hL'
  rcases hL' with ⟨h1, h2⟩
  subst h1
  subst h2
  obtain ⟨msgs, _, hfold⟩ := runScanLedger_ok env w pts seen hL
  have hkeys : pts.map Prod.fst = seen :=
    scanFold_keys env msgs ([], []) (pts, seen) (by simp) hfold
  subst hp
  have hseen : seen = [] := by simpa using hkeys.symm
  subst hres
  subst hseen
  have hrows : topN ([] : Ledger) 10 = [] := by
    simp [topN, List.mergeSort_nil]
  constructor
  · rw [hrows]
    rfl
  · rfl

unseal List.merge List.mergeSort in
/-- Claim C8 (witness): the amended empty-ledger behaviour evaluated on an
environment whose only message is outside the window. -/
theorem c8_witness :
    runScanLedger c8env 100 = .ok ([], []) ∧
      (postFancyLeaderboardEmbed ⟨[], [], 0⟩ c8env.nowIso).description =
        "No points this week." ∧
      (⟨[], [], 0⟩ : ScanResult).unique = 0 :=
  ⟨by decide, c8_amended c8env 100 [] [] ⟨[], [], 0⟩ (by decide) (by decide) rfl⟩

/-- Claim C9 (confirmed): after every successful scan, the reported
distinct-reactor count bounds the length of the top-N slice of the scan's
ledger for every choice of N; the count itself is computed from the reactor
set before any slicing and does not depend on N. -/
theorem c9_confirmed (env : Env) (w : Int) (pts : Ledger) (seen : List String)
    (res : ScanResult) (hL : runScanLedger env w = .ok (pts, seen))
    (hR : runScan env w = .ok res) :
    ∀ n, (topN pts n).length ≤ res.unique := by
  obtain ⟨pts', seen', hL', hres⟩ := runScan_ok_inv env w res hR
  rw [hL] at hL'
  simp only [Except.ok.injEq, Prod.mk.injEq] at hL'
  rcases hL' with ⟨h1, h2⟩
  subst h1
  subst h2
  obtain ⟨msgs, _, hfold⟩ := runScanLedger_ok env w pts seen hL
  have hkeys : pts.map Prod.fst = seen :=
    scanFold_keys env msgs ([], []) (pts, seen) (by simp) hfold
  have hlen : pts.length = seen.length := by
    rw [← hkeys]
    simp
  intro n
  subst hres
  simp only [topN]
  calc (List.take n (pts.mergeSort topNLe)).length
      ≤ (pts.mergeSort topNLe).length := List.length_take_le' n _
    _ = pts.length := List.length_mergeSort pts
    _ = seen.length := hlen

set_option maxRecDepth 4000 in
/-- Claim C9 (witness): the bound evaluated on a scan with two distinct
reactors and a top-3 slice. -/
theorem c9_witness :
    runScanLedger c9env 500 = .ok ([("u1", 1), ("u2", 1)], ["u1", "u2"]) ∧
      (topN [("u1", 1), ("u2", 1)] 3).length ≤ 2 :=
  ⟨by decide,
    c9_confirmed c9env 500 [("u1", 1), ("u2", 1)] ["u1", "u2"]
      ⟨topN [("u1", 1), ("u2", 1)] 10, buildNameMap "g" ["u1", "u2"], 2⟩
      (by decide) rfl 3⟩

set_option maxRecDepth 40000 in
/-- Claim C10 (counterexample): a scan without an explicit cap (cap
defaults to 100) can process more than 100 messages: a full 99-message
first page followed by a window-straddling page yields 149 messages,
because the straddling page's in-window remainder is appended without
enforcing the cap. -/
theorem c10_counterexample :
    ¬ (∀ l, getRecentMessages msInWeek none c10pages = .ok l → l.length ≤ 100) :=
  fun h =>
    absurd (h (List.replicate 99 c10fresh ++ List.replicate 50 c10fresh) (by decide))
      (by decide)

/-- Claim C10 (amended): when the cap argument is omitted it defaults to
100, and whenever every fetched message lies inside the window the scan
processes at most 100 messages; a page straddling the window boundary may
push the total above 100 (up to 199 with 100-message pages), because its
in-window remainder bypasses the cap. -/
theorem c10_amended (nowMs : Int) (pages : List MsgResponse)
    (hfresh : ∀ r ∈ pages, ∀ m ∈ r.body, nowMs - msInWeek ≤ m.ts)
    (l : List Msg) (h : getRecentMessages nowMs none pages = .ok l) :
    l.length ≤ 100 :=
  getRecentGo_length (nowMs - msInWeek) 100 pages hfresh [] l (Nat.zero_le 100) h

/-- Claim C10 (witness): the default-cap bound evaluated on a fully
in-window page. -/
theorem c10_witness :
    (∀ r ∈ c4freshPages, ∀ m ∈ r.body, msInWeek - msInWeek ≤ m.ts) ∧
      ([⟨"a", 5, "x", []⟩, ⟨"b", 4, "x", []⟩] : List Msg).length ≤ 100 :=
  ⟨by decide,
    c10_amended msInWeek c4freshPages (by decide)
      [⟨"a", 5, "x", []⟩, ⟨"b", 4, "x", []⟩] (by decide)⟩
